import Mathlib

set_option maxHeartbeats 1000000

/-!
Shallow embedding of the mclazy repository (mclazy.py, branches.py, modules.py):
the version comparator, candidate selection, the major-version-jump guard,
the per-module lock handling, the batch orchestration loop, and the branch
registry construction.  Machine strings are Lean `String`/`List Char`;
Python integers are `Nat`/`Int`; fallible steps return `Option`/`Except`.
-/

/-- Python `cmp(a, b) = (a > b) - (a < b)` (mclazy.py line 121) specialised to naturals. -/
def pycmpNat (a b : Nat) : Int :=
  (if a > b then (1 : Int) else 0) - (if a < b then (1 : Int) else 0)

/-- Python `cmp(a, b)` on strings: lexicographic comparison of code points,
with a strict prefix sorting lower. -/
def strCmpChars : List Char → List Char → Int
  | [], [] => 0
  | [], _ :: _ => -1
  | _ :: _, [] => 1
  | a :: as, b :: bs => if a = b then strCmpChars as bs else if a < b then -1 else 1

/-- A separator character of `re_version = re.compile(r'([-.]|\d+|[^-.\d]+)')`. -/
def isSepChar (c : Char) : Bool := c = '-' || c = '.'

/-- Tokenizer for `re_version.findall`: each `-` or `.` is a one-character token,
maximal runs of digits form one token, maximal runs of other characters form one
token.  `acc` holds the current (reversed) run of non-separator characters. -/
def tokenizeAux (acc : List Char) : List Char → List (List Char)
  | [] => if acc = [] then [] else [acc.reverse]
  | c :: cs =>
    if isSepChar c then
      (if acc = [] then [] else [acc.reverse]) ++ [c] :: tokenizeAux [] cs
    else
      match acc with
      | [] => tokenizeAux [c] cs
      | a :: _ =>
        if a.isDigit = c.isDigit then tokenizeAux (c :: acc) cs
        else acc.reverse :: tokenizeAux [c] cs

/-- The token list of a version string fragment. -/
def tokenize (s : List Char) : List (List Char) := tokenizeAux [] s

/-- Python `s.lstrip('0')`. -/
def lstripZeros (s : List Char) : List Char := s.dropWhile (fun c => c = '0')

/-- Python `int(t, 10)` on a token that is a run of ASCII digits. -/
def digitsToNat (t : List Char) : Nat := t.foldl (fun n c => n * 10 + (c.toNat - 48)) 0

/-- Python `t.isdigit()` for a token (nonempty, all digits; ASCII model). -/
def isDigitTok (t : List Char) : Bool := !t.isEmpty && t.all Char.isDigit

/-- Python `t.isalpha()` for a token (nonempty, all letters; ASCII model). -/
def isAlphaTok (t : List Char) : Bool := !t.isEmpty && t.all Char.isAlpha

/-- The digit-pair comparison of `version_cmp` (mclazy.py line 161):
`cmp(a, b) if (a.startswith('0') or b.startswith('0')) else cmp(int(a, 10), int(b, 10))`. -/
def digitPairCmp (a b : List Char) : Int :=
  if a.head? = some '0' || b.head? = some '0' then strCmpChars a b
  else pycmpNat (digitsToNat a) (digitsToNat b)

/-- The fallback pair comparison of `version_cmp` (mclazy.py line 171):
`cmp(a.upper(), b.upper())`. -/
def upperPairCmp (a b : List Char) : Int :=
  strCmpChars (a.map Char.toUpper) (b.map Char.toUpper)

/-- Python `t == 'alpha' or t == 'beta' or t == 'rc'` (mclazy.py lines 165, 168). -/
def isSpecialTok (t : List Char) : Bool :=
  t = "alpha".toList || t = "beta".toList || t = "rc".toList

/-- The loop of `version_cmp` (mclazy.py lines 146-175) over the two token
lists, mirroring the `if`/`elif` chain pair by pair; when one list is
exhausted the result is `cmp(len(A), len(B))`. -/
def tokCmp : List (List Char) → List (List Char) → Int
  | [], [] => 0
  | [], _ :: _ => -1
  | _ :: _, [] => 1
  | a :: A, b :: B =>
    if a = b then tokCmp A B
    else if a = ['-'] then -1
    else if b = ['-'] then 1
    else if a = ['.'] then -1
    else if b = ['.'] then 1
    else if isDigitTok a && isDigitTok b then
      (if digitPairCmp a b = 0 then tokCmp A B else digitPairCmp a b)
    else if isAlphaTok a && isDigitTok b then
      (if isSpecialTok a then -1 else tokCmp A B)
    else if isDigitTok a && isAlphaTok b then
      (if isSpecialTok b then 1 else tokCmp A B)
    else
      (if upperPairCmp a b = 0 then tokCmp A B else upperPairCmp a b)

/-- mclazy.py `version_cmp(a, b)`: strip leading zeros, tokenize, compare. -/
def version_cmp (a b : String) : Int :=
  tokCmp (tokenize (lstripZeros a.toList)) (tokenize (lstripZeros b.toList))

/-- Python `v.rstrip(os.path.sep)` with `os.path.sep = '/'` (mclazy.py line 183). -/
def rstripSlash (s : String) : String :=
  ⟨(s.toList.reverse.dropWhile (fun c => c = '/')).reverse⟩

/-- The first half of the acceptance test of the loop of `get_latest_version`:
`latest is None or version_cmp(version, latest) > 0`. -/
def beatsLatest (latest : Option String) (v : String) : Bool :=
  match latest with
  | none => true
  | some l => decide (version_cmp v l > 0)

/-- The second half of the acceptance test of the loop of `get_latest_version`:
`max_version is None or version_cmp(version, max_version) < 0`. -/
def underCeiling (maxv : Option String) (v : String) : Bool :=
  match maxv with
  | none => true
  | some m => decide (version_cmp v m < 0)

/-- One iteration test of the loop of `get_latest_version` (mclazy.py lines 185-186). -/
def glvAccept (maxv latest : Option String) (v : String) : Bool :=
  beatsLatest latest v && underCeiling maxv v

/-- The loop of `get_latest_version` (mclazy.py lines 184-187): scan the
candidates left to right, replacing `latest` whenever the acceptance test passes. -/
def glvAux (maxv : Option String) : Option String → List String → Option String
  | latest, [] => latest
  | latest, v :: rest =>
    if glvAccept maxv latest v then glvAux maxv (some v) rest else glvAux maxv latest rest

/-- mclazy.py `get_latest_version(versions, max_version)`. -/
def get_latest_version (versions : List String) (maxv : Option String) : Option String :=
  glvAux maxv none (versions.map rstripSlash)

/-- Python `int(s, 10)` modelled on unsigned decimal digit strings (the forms
with sign, surrounding whitespace or underscores do not occur in version
strings); `none` models the `ValueError` that `int` raises otherwise. -/
def pyIntDec (s : String) : Option Nat :=
  if s.toList ≠ [] ∧ s.toList.all Char.isDigit then some (digitsToNat s.toList) else none

/-- Python `s.split('.')[0]`: the characters before the first dot. -/
def leadingComponent (s : String) : String := ⟨s.toList.takeWhile (fun c => c ≠ '.')⟩

/-- The major-version-jump guard, mclazy.py lines 441-450: when the leading
components of `current_version` and `new_version` differ, Python evaluates
`int(new_major_version)` (so a non-numeric leading component raises an uncaught
`ValueError`, modelled as `none`); if that value is below 40 the update is
blocked (`some true` : `log_error` and `continue`) unless
`--relax-version-checks` was passed; otherwise the update proceeds (`some false`). -/
def major_version_guard (relax : Bool) (currentVersionDot newVersion : String) : Option Bool :=
  if leadingComponent currentVersionDot ≠ leadingComponent newVersion then
    match pyIntDec (leadingComponent newVersion) with
    | none => none
    | some n => if n < 40 then (if relax then some false else some true) else some false
  else some false

/-- Outcome of the lock-file check, mclazy.py lines 317-336. -/
inductive LockCheckResult where
  | proceedFresh : LockCheckResult
  | skipHeld : Nat → LockCheckResult
  | proceedStale : Nat → LockCheckResult
  | crashUnparsable : LockCheckResult
  deriving DecidableEq, Repr

/-- The lock-file check of the module loop (mclazy.py lines 317-336).
`content` is the parsed pid from the lock file (`none` when `int(f.read())`
raised `ValueError`), `alive` is `os.path.isdir(f"/proc/{pid}")`.  When the
file exists with an unparsable pid, `is_still_running` stays `False` and the
stale branch's f-string reads the never-assigned `pid` variable, raising an
uncaught `NameError` (modelled for the first processing of a module, before
any prior iteration could have bound `pid`). -/
def lock_check (lockExists : Bool) (content : Option Nat) (alive : Bool) : LockCheckResult :=
  if lockExists then
    match content with
    | some pid => if alive then .skipHeld pid else .proceedStale pid
    | none => .crashUnparsable
  else .proceedFresh

/-- First stale-lock message, mclazy.py line 335. -/
def staleMsg1 (pid : Nat) : String :=
  "Process with PID " ++ Nat.repr pid ++ " locked but did not release"

/-- Second stale-lock message, mclazy.py line 336. -/
def staleMsg2 : String := "(This means a previous instance of mclazy died uncleanly)"

/-- Errors logged by the lock-file check: the stale case calls `log_error`
twice; the held case only prints an informational message and `continue`s. -/
def lock_check_errors (m : String) : LockCheckResult → List (String × String)
  | .proceedStale pid => [(m, staleMsg1 pid), (m, staleMsg2)]
  | _ => []

/-- Whether the module loop goes on to `with create_lock_file(...)` after the
check: it does both for a missing lock file and for a stale one (the stale
branch falls through, mclazy.py lines 334-339). -/
def entersCriticalSection : LockCheckResult → Bool
  | .proceedFresh => true
  | .proceedStale _ => true
  | .skipHeld _ => false
  | .crashUnparsable => false

/-- How the critical section's body exits: normal completion, an early
`continue`, or an exception; `σ` is whatever the body computed. -/
inductive BodyExit (σ : Type) where
  | normal : σ → BodyExit σ
  | earlyContinue : σ → BodyExit σ
  | raised : σ → String → BodyExit σ
  deriving DecidableEq, Repr

/-- Write one file of the file system (path to content map). -/
def fsWrite (fs : String → Option String) (p : String) (c : String) : String → Option String :=
  fun q => if q = p then some c else fs q

/-- Python `os.unlink(p)` on the file system. -/
def fsUnlink (fs : String → Option String) (p : String) : String → Option String :=
  fun q => if q = p then none else fs q

/-- mclazy.py `create_lock_file` (lines 191-198): open the lock file for
writing (truncating whatever was there), write `f"{os.getpid()}"`, run the
body, and in the `finally` clause unlink the file, whichever way the body
exited; the body's own exit (including a raised exception) is then propagated
unchanged.  The body observes the file system as left by the write. -/
def create_lock_file_run {σ : Type} (pid : Nat) (path : String)
    (fs0 : String → Option String) (body : (String → Option String) → BodyExit σ) :
    (String → Option String) × BodyExit σ :=
  let fs1 := fsWrite fs0 path (Nat.repr pid)
  (fsUnlink fs1 path, body fs1)

/-- branches.py `default_version_limits` (lines 59-68), for one branch: the
default ceiling is `str(branch.gnome_version + 1)`, an exclusive upper bound. -/
def default_version_limit (gnome_version : Int) : String := toString (gnome_version + 1)

/-- branches.py `default_version_limits` over a registry given as a list of
`(branch name, gnome_version)` pairs. -/
def default_version_limits (branches : List (String × Int)) : List (String × String) :=
  branches.map (fun p => (p.1, default_version_limit p.2))

/-- A resolved per-branch version ceiling: a version string, the literal
sentinel `"ignore"`, or unbounded (`None` in Python). -/
inductive CeilingValue where
  | version : String → CeilingValue
  | ignoreSentinel : CeilingValue
  | unbounded : CeilingValue
  deriving DecidableEq, Repr

/-- Modelled from the spec: mclazy.py calls `ModulesXml(args.modules, branches)`
and reads `item.version_limit`, but the `src/modules.py` present in the
repository is a stale copy whose `ModulesXml.__init__` takes only a filename
and builds `release_glob` instead, so the `version_limit` resolution code is
missing from the sources.  Per the spec (section 4.3): resolution order is the
explicit per-branch override recorded on the module entry, else the registry's
computed default ceiling for that branch, else unbounded if the branch is the
designated rolling "no ceiling" branch; a branch with none of these has no
resolvable ceiling (`none`, a configuration error). -/
def ceilingFor (override : Option CeilingValue) (registryDefault : Option String)
    (isNoCeilingBranch : Bool) : Option CeilingValue :=
  match override with
  | some c => some c
  | none =>
    match registryDefault with
    | some d => some (.version d)
    | none => if isNoCeilingBranch then some .unbounded else none

/-- How mclazy.py's module loop sees a resolved ceiling:
`release_version[args.fedora_branch]` is a version string, the string
`"ignore"`, or `None`. -/
def moduleCeilingValue : CeilingValue → Option String
  | .version v => some v
  | .ignoreSentinel => some "ignore"
  | .unbounded => none

/-- mclazy.py lines 312-315: the module is skipped for this branch exactly when
the resolved version limit is the string `"ignore"`. -/
def skipsForIgnore (maxVersion : Option String) : Bool := maxVersion = some "ignore"

/-- A child element of a `<branch>` record in branches.xml (branches.py lines 46-57). -/
inductive BranchChild where
  | tagName : String → BranchChild
  | gnome : Int → BranchChild
  | aliasName : String → BranchChild
  | eol : BranchChild
  deriving DecidableEq, Repr

/-- One `<branch>` record of branches.xml: its `name` attribute and its
child elements in document order. -/
structure BranchRecord where
  name : String
  children : List BranchChild
  deriving DecidableEq, Repr

/-- The registry being built by `BranchesXml.__init__`: the dict mapping a key
(branch name or alias) to the index of the branch record it resolves to
(Python stores the shared mutable `Branch` object; the record index is its
identity), plus the number of warnings printed so far. -/
structure RegState where
  dict : String → Option Nat
  warnings : Nat

/-- Python dict assignment `self[k] = item`: later assignments overwrite. -/
def dinsert (d : String → Option Nat) (k : String) (v : Nat) : String → Option Nat :=
  fun q => if q = k then some v else d q

/-- Processing of one child element of a `<branch>` (branches.py lines 46-57):
only `<alias>` touches the dict, and only when its text is not yet a key;
a duplicate alias prints a warning and is skipped.  `tag`, `gnome` and `eol`
mutate the branch object only. -/
def processChild (idx : Nat) (st : RegState) : BranchChild → RegState
  | .aliasName a =>
    if (st.dict a).isSome then { st with warnings := st.warnings + 1 }
    else { st with dict := dinsert st.dict a idx }
  | _ => st

/-- Processing of one `<branch>` record (branches.py lines 41-57): the branch
name is assigned unconditionally (`self[item.name] = item`, overwriting any
earlier registration without a warning), then the children are processed in
order. -/
def processBranch (idx : Nat) (st : RegState) (b : BranchRecord) : RegState :=
  b.children.foldl (processChild idx) { st with dict := dinsert st.dict b.name idx }

/-- Fold of `BranchesXml.__init__` over the remaining branch records, with
`idx` the index of the next record. -/
def processBranches (idx : Nat) (st : RegState) : List BranchRecord → RegState
  | [] => st
  | b :: rest => processBranches (idx + 1) (processBranch idx st b) rest

/-- branches.py `BranchesXml.__init__`: build the registry from the catalog. -/
def buildRegistry (bs : List BranchRecord) : RegState :=
  processBranches 0 ⟨fun _ => none, 0⟩ bs

/-- The index (counting from `start`) of the last record named `k`, if any. -/
def lastNameIdxAux (start : Nat) (k : String) : List BranchRecord → Option Nat
  | [] => none
  | b :: rest =>
    match lastNameIdxAux (start + 1) k rest with
    | some i => some i
    | none => if b.name = k then some start else none

/-- The index of the last branch record carrying a given name, if any. -/
def lastNameIdx (bs : List BranchRecord) (k : String) : Option Nat :=
  lastNameIdxAux 0 k bs

/-- An exception escaping the module loop: mclazy.py's loop body has no
catch-all handler, so these abort `main` (only `KeyboardInterrupt` is caught
at top level). -/
inductive PyExn where
  | valueError : PyExn
  | nameError : PyExn
  deriving DecidableEq, Repr

/-- Terminal state of one module in the loop of `main`. -/
inductive ModuleOutcome where
  | ignored : ModuleOutcome
  | lockedSkip : ModuleOutcome
  | failedStep : ModuleOutcome
  | noUpdate : ModuleOutcome
  | updated : ModuleOutcome
  deriving DecidableEq, Repr

/-- The per-module inputs of one iteration of the loop of `main` (mclazy.py
lines 307-562), with each interaction with the outside world (file system,
git/fedpkg commands, the GNOME server, librpm) given as an oracle value. -/
structure ModuleEnv where
  /-- `release_version[args.fedora_branch]`: the resolved version limit. -/
  maxVersion : Option String
  /-- `os.path.exists(lock_filename)`. -/
  lockExists : Bool
  /-- `int(f.read())` on the lock file; `none` when it raised `ValueError`. -/
  lockPid : Option Nat
  /-- `os.path.isdir(f"/proc/{pid}")`. -/
  pidAlive : Bool
  /-- the checkout / fetch / branch-switch commands all succeeded (lines 342-357;
  each failure there is `log_error` + `continue`, collapsed into one flag). -/
  checkoutOk : Bool
  /-- the spec file's version after the tilde rewrite of line 371
  (`version_dot`); `none` when the spec file is missing or unparsable. -/
  specVersionDot : Option String
  /-- `urllib.request.urlretrieve` of cache.json succeeded within the 19 tries. -/
  fetchOk : Bool
  /-- `json.loads` succeeded and `j[2][module]` is present. -/
  jsonOk : Bool
  /-- `j[2][module]`: the remote version strings. -/
  remoteVersions : List String
  /-- `rpm.labelCompare((None, newest_tilde, None), (None, version, None)) > 0`
  (librpm, external). -/
  remoteIsNewer : Bool
  /-- `args.relax_version_checks`. -/
  relax : Bool
  /-- first failing step of the remaining external work (tarball download,
  new-sources, prep, mockbuild, commit, push, build: each failure there is
  `log_error` + `continue`), or `none` when everything succeeds. -/
  tailFailure : Option String

/-- The part of one module iteration that runs inside the lock's critical
section (mclazy.py lines 339-562), with `errs0` the errors already logged by
the lock check; `--check-installed` is taken as unset. -/
def module_body (m : String) (env : ModuleEnv) (errs0 : List (String × String)) :
    Except PyExn (ModuleOutcome × List (String × String)) :=
  if !env.checkoutOk then .ok (.failedStep, errs0 ++ [(m, "Switch branch")])
  else
    match env.specVersionDot with
    | none => .ok (.failedStep, errs0 ++ [(m, "Can't parse spec file")])
    | some curDot =>
      if !env.fetchOk then
        .ok (.failedStep, errs0 ++ List.replicate 19 (m, "Failed to get JSON"))
      else if !env.jsonOk then .ok (.failedStep, errs0 ++ [(m, "Failed to read JSON")])
      else
        match get_latest_version env.remoteVersions env.maxVersion with
        | none =>
          .ok (.failedStep, errs0 ++ [(m, "No remote versions less than the version limit")])
        | some newest =>
          if !env.remoteIsNewer then .ok (.noUpdate, errs0)
          else
            match major_version_guard env.relax curDot newest with
            | none => .error .valueError
            | some true =>
              .ok (.failedStep,
                errs0 ++ [(m, "Cannot update without --relax-version-checks")])
            | some false =>
              match env.tailFailure with
              | some msg => .ok (.failedStep, errs0 ++ [(m, msg)])
              | none => .ok (.updated, errs0)

/-- One full iteration of the module loop (mclazy.py lines 307-562): the
`"ignore"` skip, the lock check (a held lock skips, a stale lock logs two
errors and falls through into the critical section, an unparsable lock pid
raises `NameError`), then the critical section. -/
def module_step (m : String) (env : ModuleEnv) :
    Except PyExn (ModuleOutcome × List (String × String)) :=
  if skipsForIgnore env.maxVersion then .ok (.ignored, [])
  else
    match lock_check env.lockExists env.lockPid env.pidAlive with
    | .skipHeld _ => .ok (.lockedSkip, [])
    | .crashUnparsable => .error .nameError
    | r => module_body m env (lock_check_errors m r)

/-- The whole batch loop: run the modules in order, accumulating outcomes and
the global `errors` list; an exception escaping one module's iteration aborts
the remaining modules and the whole run. -/
def run_batch : List (String × ModuleEnv) → Except PyExn (List ModuleOutcome × List (String × String))
  | [] => .ok ([], [])
  | (m, env) :: rest =>
    match module_step m env with
    | .error e => .error e
    | .ok (o, errs) =>
      match run_batch rest with
      | .error e => .error e
      | .ok (os, errs2) => .ok (o :: os, errs ++ errs2)

/-- Statement helper: no element of `l` both survives the ceiling filter and
compares strictly greater than `r`. -/
def noLaterBeat (maxv : Option String) (r : String) (l : List String) : Prop :=
  ∀ v ∈ l, ¬(underCeiling maxv v = true ∧ version_cmp v r > 0)

/-- The conditions under which one module iteration does not raise: the lock
file's pid is parsable when the lock file exists (else the stale branch's
`NameError`), and every candidate's leading component is numeric (else the
major-version guard's `int()` raises `ValueError`). -/
def envSafe (env : ModuleEnv) : Prop :=
  (env.lockExists = true → env.lockPid ≠ none)
  ∧ (∀ v ∈ env.remoteVersions.map rstripSlash, pyIntDec (leadingComponent v) ≠ none)

/-- A module iteration input on which every step succeeds: no lock, checkout
and fetch fine, current version 39.0, one remote candidate 40.1, no tail
failure. -/
def okEnv : ModuleEnv :=
  { maxVersion := none, lockExists := false, lockPid := none, pidAlive := false,
    checkoutOk := true, specVersionDot := some "39.0", fetchOk := true, jsonOk := true,
    remoteVersions := ["40.1"], remoteIsNewer := true, relax := false, tailFailure := none }

/-- A module iteration input whose selected candidate, "alpha.1", has a
non-numeric leading component: the major-version guard's
`int(new_major_version)` raises `ValueError`, which nothing in the loop
catches. -/
def crashEnv : ModuleEnv := { okEnv with remoteVersions := ["alpha.1"] }

/-! Sanity evaluations of the embedding on concrete inputs. -/

example : version_cmp "2.09" "2.1" = -1 := by decide
example : version_cmp "3.4.0" "3.3.92" = 1 := by decide
example : version_cmp "1.0~alpha" "1.0" = 1 := by decide
example : version_cmp "foo.1" "2.2" = -1 := by decide
example : version_cmp "2.2" "bar.3" = -1 := by decide
example : version_cmp "foo.1" "bar.3" = 1 := by decide
example : version_cmp "foo" "1" = 0 := by decide
example : version_cmp "1" "bar" = 0 := by decide
example : version_cmp "foo" "bar" = 1 := by decide
example : version_cmp "47.0" "46.3" = 1 := by decide
example : version_cmp "48.1" "48" = 1 := by decide
example : version_cmp "1.0.alpha" "1.0.0" = -1 := by decide

example : get_latest_version ["46.3", "47.0", "48.1"] (some "48") = some "47.0" := by decide
example : get_latest_version ["bar.3", "foo.1", "2.2"] none = some "2.2" := by decide
example : get_latest_version ["1.a", "1.1"] none = some "1.a" := by decide
example : version_cmp "1.1" "1.a" = 0 := by decide
example : get_latest_version [] none = none := by decide
example : get_latest_version ["48.1"] (some "48") = none := by decide

example : major_version_guard false "39.0" "3.99.1" = some true := by decide
example : major_version_guard true "39.0" "3.99.1" = some false := by decide
example : major_version_guard false "39.0" "alpha.1" = none := by decide
example : major_version_guard false "40.1" "40.2" = some false := by decide
example : major_version_guard false "3.38.1" "41.0" = some false := by decide

/-! Helper lemmas for the comparator. -/

theorem pycmpNat_neg (a b : Nat) : pycmpNat a b = -pycmpNat b a := by
  simp only [pycmpNat]
  split_ifs <;> omega

theorem pycmpNat_trichotomy (a b : Nat) :
    pycmpNat a b = -1 ∨ pycmpNat a b = 0 ∨ pycmpNat a b = 1 := by
  simp only [pycmpNat]
  split_ifs <;> omega

theorem strCmpChars_neg : ∀ (x y : List Char), strCmpChars x y = -strCmpChars y x := by
  intro x
  induction x with
  | nil => intro y; cases y <;> simp [strCmpChars]
  | cons a as ih =>
    intro y
    cases y with
    | nil => simp [strCmpChars]
    | cons b bs =>
      simp only [strCmpChars]
      by_cases hab : a = b
      · subst hab
        simp [ih bs]
      · have hba : ¬b = a := fun h => hab h.symm
        rcases lt_trichotomy a b with h | h | h
        · simp [hab, hba, h, not_lt_of_gt h]
        · exact absurd h hab
        · simp [hab, hba, h, not_lt_of_gt h]

theorem strCmpChars_trichotomy : ∀ (x y : List Char),
    strCmpChars x y = -1 ∨ strCmpChars x y = 0 ∨ strCmpChars x y = 1 := by
  intro x
  induction x with
  | nil => intro y; cases y <;> simp [strCmpChars]
  | cons a as ih =>
    intro y
    cases y with
    | nil => simp [strCmpChars]
    | cons b bs =>
      simp only [strCmpChars]
      by_cases hab : a = b
      · simpa [hab] using ih bs
      · by_cases h : a < b <;> simp [hab, h]

theorem digitPairCmp_neg (a b : List Char) : digitPairCmp a b = -digitPairCmp b a := by
  simp only [digitPairCmp, Bool.or_comm (decide (b.head? = some '0'))]
  split_ifs
  · exact strCmpChars_neg a b
  · exact pycmpNat_neg (digitsToNat a) (digitsToNat b)

theorem upperPairCmp_neg (a b : List Char) : upperPairCmp a b = -upperPairCmp b a := by
  simp only [upperPairCmp]
  exact strCmpChars_neg _ _

theorem digitPairCmp_trichotomy (a b : List Char) :
    digitPairCmp a b = -1 ∨ digitPairCmp a b = 0 ∨ digitPairCmp a b = 1 := by
  simp only [digitPairCmp]
  split_ifs
  · exact strCmpChars_trichotomy a b
  · exact pycmpNat_trichotomy _ _

theorem upperPairCmp_trichotomy (a b : List Char) :
    upperPairCmp a b = -1 ∨ upperPairCmp a b = 0 ∨ upperPairCmp a b = 1 :=
  strCmpChars_trichotomy _ _

theorem contRetCmp_neg {x y : Int} {r s : Int} (hxy : x = -y) (hrs : r = -s) :
    (if x = 0 then r else x) = -(if y = 0 then s else y) := by
  by_cases hx : x = 0
  · have hy : y = 0 := by omega
    rw [if_pos hx, if_pos hy]; exact hrs
  · have hy : ¬y = 0 := by omega
    rw [if_neg hx, if_neg hy]; exact hxy

theorem tokCmp_neg : ∀ (A B : List (List Char)), tokCmp A B = -tokCmp B A := by
  intro A
  induction A with
  | nil => intro B; cases B <;> simp [tokCmp]
  | cons a A ih =>
    intro B
    cases B with
    | nil => simp [tokCmp]
    | cons b B =>
      simp only [tokCmp]
      by_cases hab : a = b
      · subst hab
        simp [ih B]
      · have hba : ¬b = a := fun h => hab h.symm
        rw [if_neg hab, if_neg hba]
        by_cases hadash : a = ['-']
        · have hbdash : ¬b = ['-'] := fun h => hab (hadash.trans h.symm)
          rw [if_pos hadash, if_neg hbdash, if_pos hadash]
          try norm_num
        · by_cases hbdash : b = ['-']
          · rw [if_neg hadash, if_pos hbdash, if_pos hbdash]
            try norm_num
          · rw [if_neg hadash, if_neg hbdash, if_neg hbdash, if_neg hadash]
            by_cases hadot : a = ['.']
            · have hbdot : ¬b = ['.'] := fun h => hab (hadot.trans h.symm)
              rw [if_pos hadot, if_neg hbdot, if_pos hadot]
              try norm_num
            · by_cases hbdot : b = ['.']
              · rw [if_neg hadot, if_pos hbdot, if_pos hbdot]
                try norm_num
              · rw [if_neg hadot, if_neg hbdot, if_neg hbdot, if_neg hadot]
                by_cases hDD : (isDigitTok a && isDigitTok b) = true
                · have hDD' : (isDigitTok b && isDigitTok a) = true := by
                    rwa [Bool.and_comm] at hDD
                  rw [if_pos hDD, if_pos hDD']
                  exact contRetCmp_neg (digitPairCmp_neg a b) (ih B)
                · have hDD' : ¬(isDigitTok b && isDigitTok a) = true := by
                    rwa [Bool.and_comm] at hDD
                  rw [if_neg hDD, if_neg hDD']
                  by_cases hAD : (isAlphaTok a && isDigitTok b) = true
                  · have hDb : isDigitTok b = true := (Bool.and_eq_true _ _ |>.mp hAD).2
                    have hDa : isDigitTok a = false := by
                      cases h : isDigitTok a
                      · rfl
                      · exact absurd (Bool.and_eq_true _ _ |>.mpr ⟨h, hDb⟩) hDD
                    have hAbDa : ¬(isAlphaTok b && isDigitTok a) = true := by
                      rw [hDa, Bool.and_false]; simp
                    have hDbAa : (isDigitTok b && isAlphaTok a) = true := by
                      rw [Bool.and_comm]; exact hAD
                    rw [if_pos hAD, if_neg hAbDa, if_pos hDbAa]
                    by_cases hs : isSpecialTok a = true
                    · rw [if_pos hs, if_pos hs]
                      try norm_num
                    · rw [if_neg hs, if_neg hs]
                      exact ih B
                  · by_cases hDA : (isDigitTok a && isAlphaTok b) = true
                    · have hDa : isDigitTok a = true := (Bool.and_eq_true _ _ |>.mp hDA).1
                      have hDb : isDigitTok b = false := by
                        cases h : isDigitTok b
                        · rfl
                        · exact absurd (Bool.and_eq_true _ _ |>.mpr ⟨hDa, h⟩) hDD
                      have hAbDa : (isAlphaTok b && isDigitTok a) = true := by
                        rw [Bool.and_comm]; exact hDA
                      have hDbAa : ¬(isDigitTok b && isAlphaTok a) = true := by
                        rw [hDb, Bool.false_and]; simp
                      rw [if_neg hAD, if_pos hDA, if_pos hAbDa]
                      by_cases hs : isSpecialTok b = true
                      · rw [if_pos hs, if_pos hs]
                        try norm_num
                      · rw [if_neg hs, if_neg hs]
                        exact ih B
                    · have hAbDa : ¬(isAlphaTok b && isDigitTok a) = true := by
                        rwa [Bool.and_comm] at hDA
                      have hDbAa : ¬(isDigitTok b && isAlphaTok a) = true := by
                        rwa [Bool.and_comm] at hAD
                      rw [if_neg hAD, if_neg hDA, if_neg hAbDa, if_neg hDbAa]
                      exact contRetCmp_neg (upperPairCmp_neg a b) (ih B)

theorem tokCmp_trichotomy : ∀ (A B : List (List Char)),
    tokCmp A B = -1 ∨ tokCmp A B = 0 ∨ tokCmp A B = 1 := by
  intro A
  induction A with
  | nil => intro B; cases B <;> simp [tokCmp]
  | cons a A ih =>
    intro B
    cases B with
    | nil => simp [tokCmp]
    | cons b B =>
      simp only [tokCmp]
      split_ifs <;>
        first
          | exact ih B
          | exact digitPairCmp_trichotomy a b
          | exact upperPairCmp_trichotomy a b
          | norm_num

/-- C1 (amended): `version_cmp` is antisymmetric
(`version_cmp a b = -version_cmp b a` for all version strings) and total
(every pair yields exactly one of LESS (-1), EQUAL (0), GREATER (1) — never
"incomparable"), but it is not transitive: a non-decisive alphabetic-versus-
numeric token pair (an alphabetic token other than `alpha`/`beta`/`rc`) is
skipped, which permits cycles, so neither the strict relation nor the EQUAL
relation is transitive. -/
theorem version_cmp_antisym_total (a b : String) :
    version_cmp a b = -version_cmp b a ∧
    (version_cmp a b = -1 ∨ version_cmp a b = 0 ∨ version_cmp a b = 1) :=
  ⟨tokCmp_neg _ _, tokCmp_trichotomy _ _⟩

/-- C1 fails as stated: transitivity does not hold.  The strict relation has a
cycle `foo.1 < 2.2 < bar.3 < foo.1` (the pairs `foo`/`2`, `2`/`bar` are
skipped as non-decisive and the digit pairs decide, while `foo`/`bar` is
decided lexicographically), and EQUAL is not transitive either:
`foo == 1 == bar` yet `foo > bar`. -/
theorem version_cmp_not_transitive_counterexample :
    version_cmp "foo.1" "2.2" = -1 ∧ version_cmp "2.2" "bar.3" = -1 ∧
    version_cmp "foo.1" "bar.3" = 1 ∧
    version_cmp "foo" "1" = 0 ∧ version_cmp "1" "bar" = 0 ∧
    version_cmp "foo" "bar" = 1 := by
  refine ⟨by decide, by decide, by decide, by decide, by decide, by decide⟩

/-- C5 (amended): `version_cmp "2.09" "2.1"` is LESS (the leading-zero digit
pair `09`/`1` falls back to lexicographic comparison) and
`version_cmp "3.4.0" "3.3.92"` is GREATER; but `version_cmp "1.0~alpha" "1.0"`
is GREATER, not LESS: `~alpha` is a single non-alphabetic token (`~` is
neither a digit nor a separator), no pair decides, and the side with tokens
remaining sorts higher. -/
theorem version_cmp_examples :
    version_cmp "2.09" "2.1" = -1 ∧ version_cmp "3.4.0" "3.3.92" = 1 ∧
    version_cmp "1.0~alpha" "1.0" = 1 := by
  refine ⟨by decide, by decide, by decide⟩

/-- C5 fails as stated on its third example: the claim says
`version_cmp "1.0~alpha" "1.0"` is LESS (-1), but it evaluates to GREATER (1). -/
theorem version_cmp_tilde_counterexample :
    version_cmp "1.0~alpha" "1.0" = 1 ∧ ¬version_cmp "1.0~alpha" "1.0" = -1 := by
  refine ⟨by decide, by decide⟩

/-! Helper lemmas for `get_latest_version`. -/

theorem glvAccept_underCeiling {maxv latest : Option String} {v : String}
    (h : glvAccept maxv latest v = true) : underCeiling maxv v = true :=
  ((Bool.and_eq_true _ _).mp h).2

theorem glvAccept_some_intro {maxv : Option String} {c v : String}
    (hu : underCeiling maxv v = true) (hgt : version_cmp v c > 0) :
    glvAccept maxv (some c) v = true := by
  simp only [glvAccept, beatsLatest]
  exact (Bool.and_eq_true _ _).mpr ⟨by simpa using hgt, hu⟩

theorem glvAux_some_ne_none (maxv : Option String) :
    ∀ (l : List String) (c : String), glvAux maxv (some c) l ≠ none := by
  intro l
  induction l with
  | nil => intro c h; exact Option.noConfusion h
  | cons v rest ih =>
    intro c
    simp only [glvAux]
    by_cases h : glvAccept maxv (some c) v = true
    · rw [if_pos h]; exact ih v
    · rw [if_neg h]; exact ih c

theorem glvAux_none_eq_none_iff (maxv : Option String) :
    ∀ l : List String, glvAux maxv none l = none ↔ ∀ v ∈ l, underCeiling maxv v = false := by
  intro l
  induction l with
  | nil => simp [glvAux]
  | cons v rest ih =>
    simp only [glvAux]
    by_cases h : glvAccept maxv none v = true
    · rw [if_pos h]
      have hu : underCeiling maxv v = true := glvAccept_underCeiling h
      constructor
      · intro hn; exact absurd hn (glvAux_some_ne_none maxv rest v)
      · intro hall
        have := hall v (List.mem_cons_self v rest)
        rw [hu] at this
        exact absurd this (by simp)
    · rw [if_neg h]
      have hv : underCeiling maxv v = false := by
        cases hu : underCeiling maxv v
        · rfl
        · exact absurd ((Bool.and_eq_true _ _).mpr ⟨rfl, hu⟩) h
      rw [ih]
      constructor
      · intro hall w hw
        rcases List.mem_cons.mp hw with rfl | hw'
        · exact hv
        · exact hall w hw'
      · intro hall w hw
        exact hall w (List.mem_cons_of_mem v hw)

theorem glvAux_some_spec (maxv : Option String) :
    ∀ (l : List String) (c r : String), glvAux maxv (some c) l = some r →
      (r = c ∧ noLaterBeat maxv r l) ∨
      (∃ pre post, l = pre ++ r :: post ∧ underCeiling maxv r = true ∧
        noLaterBeat maxv r post) := by
  intro l
  induction l with
  | nil =>
    intro c r h
    simp only [glvAux] at h
    left
    refine ⟨(Option.some.inj h).symm, ?_⟩
    intro v hv
    cases hv
  | cons v rest ih =>
    intro c r h
    simp only [glvAux] at h
    by_cases hacc : glvAccept maxv (some c) v = true
    · rw [if_pos hacc] at h
      rcases ih v r h with ⟨hrv, hnb⟩ | ⟨pre, post, heq, hu, hnb⟩
      · subst hrv
        exact Or.inr ⟨[], rest, rfl, glvAccept_underCeiling hacc, hnb⟩
      · exact Or.inr ⟨v :: pre, post, by rw [heq, List.cons_append], hu, hnb⟩
    · rw [if_neg hacc] at h
      rcases ih c r h with ⟨hrc, hnb⟩ | ⟨pre, post, heq, hu, hnb⟩
      · left
        refine ⟨hrc, ?_⟩
        intro w hw
        rcases List.mem_cons.mp hw with rfl | hw'
        · subst hrc
          rintro ⟨hu', hgt⟩
          exact hacc (glvAccept_some_intro hu' hgt)
        · exact hnb w hw'
      · exact Or.inr ⟨v :: pre, post, by rw [heq, List.cons_append], hu, hnb⟩

theorem glvAux_none_some_spec (maxv : Option String) :
    ∀ (l : List String) (r : String), glvAux maxv none l = some r →
      ∃ pre post, l = pre ++ r :: post ∧ underCeiling maxv r = true ∧
        noLaterBeat maxv r post := by
  intro l
  induction l with
  | nil => intro r h; simp [glvAux] at h
  | cons v rest ih =>
    intro r h
    simp only [glvAux] at h
    by_cases hacc : glvAccept maxv none v = true
    · rw [if_pos hacc] at h
      rcases glvAux_some_spec maxv rest v r h with ⟨hrv, hnb⟩ | ⟨pre, post, heq, hu, hnb⟩
      · subst hrv
        exact ⟨[], rest, rfl, glvAccept_underCeiling hacc, hnb⟩
      · exact ⟨v :: pre, post, by rw [heq, List.cons_append], hu, hnb⟩
    · rw [if_neg hacc] at h
      rcases ih r h with ⟨pre, post, heq, hu, hnb⟩
      exact ⟨v :: pre, post, by rw [heq, List.cons_append], hu, hnb⟩

/-- C2 (amended): `get_latest_version` performs a greedy left-to-right
selection.  It returns `none` exactly when no (slash-stripped) candidate
survives the ceiling filter — and the filter is vacuous when `max_version` is
`None`; when it returns `some r`, `r` is a surviving candidate and no
candidate appearing after it both survives the filter and compares strictly
greater than it (under a transitive comparator this would make `r` the
maximum, but an *earlier* surviving candidate may compare greater, so `r`
need not be a maximum in general); the first of several EQUAL-comparing
candidates wins; and with candidates {46.3, 47.0, 48.1} and ceiling "48" it
selects 47.0. -/
theorem get_latest_version_spec (versions : List String) (maxv : Option String) (r : String) :
    (get_latest_version versions maxv = none ↔
      ∀ v ∈ versions.map rstripSlash, underCeiling maxv v = false)
    ∧ (get_latest_version versions maxv = some r →
        ∃ pre post, versions.map rstripSlash = pre ++ r :: post ∧
          underCeiling maxv r = true ∧ noLaterBeat maxv r post)
    ∧ get_latest_version ["46.3", "47.0", "48.1"] (some "48") = some "47.0"
    ∧ get_latest_version ["1.a", "1.1"] none = some "1.a"
    ∧ version_cmp "1.1" "1.a" = 0 := by
  refine ⟨glvAux_none_eq_none_iff maxv _, ?_, by decide, by decide, by decide⟩
  intro h
  exact glvAux_none_some_spec maxv _ r h

/-- Witness for C2's amended theorem at the spec's worked example: the
selected candidate 47.0 survives the "48" ceiling and nothing after it in the
candidate list beats it. -/
theorem get_latest_version_spec_witness :
    ∃ pre post, ["46.3", "47.0", "48.1"].map rstripSlash = pre ++ "47.0" :: post ∧
      underCeiling (some "48") "47.0" = true ∧ noLaterBeat (some "48") "47.0" post :=
  (get_latest_version_spec ["46.3", "47.0", "48.1"] (some "48") "47.0").2.1 (by decide)

/-- C2 fails as stated: the result need not be the maximum among surviving
candidates.  With candidates `bar.3, foo.1, 2.2` and no ceiling, every
candidate survives, the fold returns `2.2`, yet the surviving candidate
`bar.3` compares strictly greater than `2.2` — so the returned value is not a
maximum under `version_cmp` (indeed the comparator cycles on this set and no
maximum exists). -/
theorem get_latest_version_not_max_counterexample :
    get_latest_version ["bar.3", "foo.1", "2.2"] none = some "2.2" ∧
    version_cmp "bar.3" "2.2" = 1 ∧ underCeiling none "bar.3" = true := by
  refine ⟨by decide, by decide, by decide⟩

/-- C3: the major-version-jump guard blocks an update exactly when the leading
component of the current version (its characters before the first '.')
differs from that of the selected candidate AND the candidate's leading
component parses to a number below the fixed threshold 40, unless
`--relax-version-checks` is set, in which case the update is accepted; in
every other case the update proceeds.  (Stated for candidates whose leading
component is numeric so that `int()` does not raise; see the batch-loop
theorems for the raising case.) -/
theorem major_version_guard_spec (relax : Bool) (cur new : String) (n : Nat)
    (h : pyIntDec (leadingComponent new) = some n) :
    (major_version_guard relax cur new = some true ↔
      (leadingComponent cur ≠ leadingComponent new ∧ n < 40 ∧ relax = false))
    ∧ (major_version_guard relax cur new = some false ↔
      ¬(leadingComponent cur ≠ leadingComponent new ∧ n < 40 ∧ relax = false)) := by
  have hguard : major_version_guard relax cur new =
      (if leadingComponent cur ≠ leadingComponent new then
        (if n < 40 then (if relax then some false else some true) else some false)
      else some false) := by
    simp only [major_version_guard]
    by_cases hd : leadingComponent cur ≠ leadingComponent new
    · rw [if_pos hd, if_pos hd, h]
    · rw [if_neg hd, if_neg hd]
  simp only [hguard]
  by_cases hd : leadingComponent cur ≠ leadingComponent new
  · simp only [if_pos hd]
    by_cases hn : n < 40
    · simp only [if_pos hn]
      cases relax
      · simp [hd, hn]
      · simp
    · simp only [if_neg hn]
      simp [hn]
  · simp only [if_neg hd]
    rw [not_not] at hd
    simp [hd]

/-- Witness for C3 at the spec's worked example: current version 39.0 with
candidate 3.99.1 is blocked without the relax flag and accepted with it. -/
theorem major_version_guard_spec_witness :
    major_version_guard false "39.0" "3.99.1" = some true ∧
    major_version_guard true "39.0" "3.99.1" = some false := by
  constructor
  · exact (major_version_guard_spec false "39.0" "3.99.1" 3 (by decide)).1.mpr
      ⟨by decide, by decide, rfl⟩
  · exact (major_version_guard_spec true "39.0" "3.99.1" 3 (by decide)).2.mpr
      (by intro hc; exact absurd hc.2.2 (by decide))

/-- C4 (amended): when the existing lock's recorded owner process is not
alive, the condition is logged as an error (two `log_error` messages naming
the module) and is non-fatal to the batch, but the critical section IS
entered for this run: the stale branch falls through to
`with create_lock_file(...)`, which opens the lock file for writing and so
overwrites the stale lock with the current process id rather than leaving it
in place. -/
theorem stale_lock_spec (m : String) (pid mypid : Nat) (env : ModuleEnv)
    (fs0 : String → Option String) (path : String) :
    lock_check true (some pid) false = .proceedStale pid
    ∧ entersCriticalSection (.proceedStale pid) = true
    ∧ lock_check_errors m (.proceedStale pid) = [(m, staleMsg1 pid), (m, staleMsg2)]
    ∧ module_step m { env with
        maxVersion := none, lockExists := true, lockPid := some pid, pidAlive := false }
      = module_body m { env with
          maxVersion := none, lockExists := true, lockPid := some pid, pidAlive := false }
          [(m, staleMsg1 pid), (m, staleMsg2)]
    ∧ (create_lock_file_run mypid path fs0 (fun fs => BodyExit.normal (fs path))).2
        = BodyExit.normal (some (Nat.repr mypid)) := by
  refine ⟨rfl, rfl, rfl, rfl, ?_⟩
  simp [create_lock_file_run, fsWrite]

/-- C4 fails as stated: with an existing lock file recording pid 4242 whose
process is dead, the check logs the stale condition but proceeds
(`proceedStale`), the critical section IS entered, and `create_lock_file`
overwrites the stale content "4242" with the current pid — the body observes
"777", not "4242". -/
theorem stale_lock_counterexample :
    lock_check true (some 4242) false = .proceedStale 4242
    ∧ entersCriticalSection (lock_check true (some 4242) false) = true
    ∧ (create_lock_file_run 777 "cache/gpm-mclazy.lock"
        (fun q => if q = "cache/gpm-mclazy.lock" then some "4242" else none)
        (fun fs => BodyExit.normal (fs "cache/gpm-mclazy.lock"))).2
      = BodyExit.normal (some "777") := by
  refine ⟨rfl, rfl, by decide⟩

/-- C8: on successful acquisition the lock file is written containing exactly
the current process identifier in decimal (`Nat.repr pid`, which is what
`f"{os.getpid()}"` produces), the critical section's body observes that
content, and whichever way the body exits — normal completion, early
continue, or a raised exception — the `finally` clause removes the lock file,
leaves every other file untouched, and propagates the body's own exit
unchanged. -/
theorem create_lock_file_spec {σ : Type} (pid : Nat) (path : String)
    (fs0 : String → Option String) (body : (String → Option String) → BodyExit σ)
    (q : String) (hq : q ≠ path) :
    fsWrite fs0 path (Nat.repr pid) path = some (Nat.repr pid)
    ∧ (create_lock_file_run pid path fs0 body).1 path = none
    ∧ (create_lock_file_run pid path fs0 body).1 q = fs0 q
    ∧ (create_lock_file_run pid path fs0 body).2 = body (fsWrite fs0 path (Nat.repr pid)) := by
  refine ⟨by simp [fsWrite], by simp [create_lock_file_run, fsUnlink], ?_, rfl⟩
  simp [create_lock_file_run, fsUnlink, fsWrite, hq]

/-- Witness for C8 with a body that raises: the lock file holds "31337"
during the section, is removed afterwards, the unrelated file is untouched,
and the exception is propagated. -/
theorem create_lock_file_spec_witness :
    fsWrite (fun _ => none) "cache/gpm-mclazy.lock" (Nat.repr 31337) "cache/gpm-mclazy.lock"
        = some (Nat.repr 31337)
    ∧ (create_lock_file_run 31337 "cache/gpm-mclazy.lock" (fun _ => none)
        (fun _ => BodyExit.raised () "patches do not apply")).1 "cache/gpm-mclazy.lock" = none
    ∧ (create_lock_file_run 31337 "cache/gpm-mclazy.lock" (fun _ => none)
        (fun _ => BodyExit.raised () "patches do not apply")).1 "cache/gpm" = none
    ∧ (create_lock_file_run 31337 "cache/gpm-mclazy.lock" (fun _ => none)
        (fun _ => BodyExit.raised () "patches do not apply")).2
      = (fun _ => BodyExit.raised () "patches do not apply")
          (fsWrite (fun _ => none) "cache/gpm-mclazy.lock" (Nat.repr 31337)) :=
  create_lock_file_spec 31337 "cache/gpm-mclazy.lock" (fun _ => none)
    (fun _ => BodyExit.raised () "patches do not apply") "cache/gpm" (by decide)

/-- C6: ceiling resolution (the resolver itself is spec-modelled, since
`src/modules.py` is a stale copy without the `version_limit` logic that
mclazy.py consumes).  The resolved ceiling is the explicit per-branch
override when one exists, else the registry's computed default (which for a
branch tracking release 48 is "49", i.e. tracked release + 1 per
branches.py `default_version_limits`), else unbounded exactly when the
branch is the designated no-ceiling branch; the resolved value is by type one
of a version string, the sentinel "ignore", or unbounded; and mclazy.py's
loop skips a module exactly when the value it sees is the string "ignore". -/
theorem ceilingFor_spec (override : Option CeilingValue) (registryDefault : Option String)
    (noCeil : Bool) (c : CeilingValue) (d : String) :
    (override = some c → ceilingFor override registryDefault noCeil = some c)
    ∧ (override = none → registryDefault = some d →
        ceilingFor override registryDefault noCeil = some (CeilingValue.version d))
    ∧ (override = none → registryDefault = none →
        (ceilingFor override registryDefault noCeil = some CeilingValue.unbounded ↔
          noCeil = true))
    ∧ (∀ cv : CeilingValue,
        skipsForIgnore (moduleCeilingValue cv) = true ↔ moduleCeilingValue cv = some "ignore")
    ∧ default_version_limit 48 = "49" := by
  refine ⟨?_, ?_, ?_, ?_, by decide⟩
  · intro h; rw [h]; rfl
  · intro h1 h2; rw [h1, h2]; rfl
  · intro h1 h2; rw [h1, h2]
    cases noCeil <;> simp [ceilingFor]
  · intro cv
    simp [skipsForIgnore]

/-- Witness for C6: an "ignore" override wins over a registry default, the
default "49" is used when no override exists, and unbounded is resolved on
the no-ceiling branch when the registry has no default. -/
theorem ceilingFor_spec_witness :
    ceilingFor (some CeilingValue.ignoreSentinel) (some "49") false
        = some CeilingValue.ignoreSentinel
    ∧ ceilingFor none (some "49") false = some (CeilingValue.version "49")
    ∧ (ceilingFor none none true = some CeilingValue.unbounded ↔ true = true) :=
  ⟨(ceilingFor_spec (some CeilingValue.ignoreSentinel) (some "49") false
      CeilingValue.ignoreSentinel "49").1 rfl,
   (ceilingFor_spec none (some "49") false CeilingValue.ignoreSentinel "49").2.1 rfl rfl,
   (ceilingFor_spec none none true CeilingValue.ignoreSentinel "49").2.2.1 rfl rfl⟩

/-! Helper lemmas for the branch registry. -/

theorem processChild_preserves (idx : Nat) (k : String) (i : Nat) :
    ∀ (ch : BranchChild) (st : RegState),
      st.dict k = some i → (processChild idx st ch).dict k = some i := by
  intro ch st h
  cases ch with
  | aliasName a =>
    simp only [processChild]
    by_cases ha : (st.dict a).isSome
    · rw [if_pos ha]; exact h
    · rw [if_neg ha]
      by_cases hak : a = k
      · subst hak
        rw [h] at ha
        exact absurd rfl ha
      · show (if k = a then some idx else st.dict k) = some i
        rw [if_neg (fun hh => hak hh.symm)]
        exact h
  | tagName t => exact h
  | gnome v => exact h
  | eol => exact h

theorem processChildren_preserves (idx : Nat) (k : String) (i : Nat) :
    ∀ (children : List BranchChild) (st : RegState),
      st.dict k = some i → (children.foldl (processChild idx) st).dict k = some i := by
  intro children
  induction children with
  | nil => intro st h; exact h
  | cons ch rest ih =>
    intro st h
    exact ih _ (processChild_preserves idx k i ch st h)

theorem processBranch_preserves (idx : Nat) (k : String) (i : Nat) (b : BranchRecord)
    (st : RegState) (hbk : b.name ≠ k) (h : st.dict k = some i) :
    (processBranch idx st b).dict k = some i := by
  apply processChildren_preserves
  show (if k = b.name then some idx else st.dict k) = some i
  rw [if_neg (fun hh => hbk hh.symm)]
  exact h

theorem dict_persists (k : String) (i : Nat) :
    ∀ (rest : List BranchRecord) (idx : Nat) (st : RegState),
      st.dict k = some i → (∀ b ∈ rest, b.name ≠ k) →
      (processBranches idx st rest).dict k = some i := by
  intro rest
  induction rest with
  | nil => intro idx st h _; exact h
  | cons b rest ih =>
    intro idx st h hnames
    exact ih (idx + 1)
      (processBranch idx st b)
      (processBranch_preserves idx k i b st (hnames b (List.mem_cons_self b rest)) h)
      (fun b' hb' => hnames b' (List.mem_cons_of_mem b hb'))

theorem lastNameIdxAux_none (k : String) :
    ∀ (rest : List BranchRecord) (start : Nat),
      lastNameIdxAux start k rest = none → ∀ b ∈ rest, b.name ≠ k := by
  intro rest
  induction rest with
  | nil => intro start _ b hb; cases hb
  | cons b rest ih =>
    intro start h b' hb'
    simp only [lastNameIdxAux] at h
    cases hinner : lastNameIdxAux (start + 1) k rest with
    | some i => rw [hinner] at h; exact Option.noConfusion h
    | none =>
      rw [hinner] at h
      by_cases hbk : b.name = k
      · rw [if_pos hbk] at h; exact Option.noConfusion h
      · rcases List.mem_cons.mp hb' with rfl | hmem
        · exact hbk
        · exact ih (start + 1) hinner b' hmem

/-- C9: when an `<alias>` element's text duplicates an already-registered key,
the first registration is kept (the dict is unchanged), a non-fatal warning is
counted, construction continues, and — provided no later `<branch>` element
reuses that name, which would overwrite it unconditionally (see the C10
theorem) — the duplicated key still resolves to the originally registered
branch after the remaining records are processed. -/
theorem duplicate_alias_spec (idx idx0 : Nat) (st : RegState) (a : String) (i : Nat)
    (rest : List BranchRecord)
    (h : st.dict a = some i) (hrest : ∀ b ∈ rest, b.name ≠ a) :
    (processChild idx st (BranchChild.aliasName a)).dict = st.dict
    ∧ (processChild idx st (BranchChild.aliasName a)).warnings = st.warnings + 1
    ∧ (processBranches idx0 (processChild idx st (BranchChild.aliasName a)) rest).dict a
        = some i := by
  have hsome : (st.dict a).isSome := by rw [h]; rfl
  have hd : (processChild idx st (BranchChild.aliasName a)).dict = st.dict := by
    simp [processChild, hsome]
  refine ⟨hd, by simp [processChild, hsome], ?_⟩
  exact dict_persists a i rest idx0 _ (by rw [hd]; exact h) hrest

/-- Witness for C9: with "rawhide" registered to branch 0 and a later branch
record "f41" not reusing the key, a duplicate `<alias>rawhide</alias>` leaves
the dict unchanged, adds one warning, and "rawhide" still resolves to 0. -/
theorem duplicate_alias_spec_witness :
    (processChild 1 ⟨fun q => if q = "rawhide" then some 0 else none, 0⟩
        (BranchChild.aliasName "rawhide")).dict
      = (⟨fun q => if q = "rawhide" then some 0 else none, 0⟩ : RegState).dict
    ∧ (processChild 1 ⟨fun q => if q = "rawhide" then some 0 else none, 0⟩
        (BranchChild.aliasName "rawhide")).warnings
      = (⟨fun q => if q = "rawhide" then some 0 else none, 0⟩ : RegState).warnings + 1
    ∧ (processBranches 1
        (processChild 1 ⟨fun q => if q = "rawhide" then some 0 else none, 0⟩
          (BranchChild.aliasName "rawhide"))
        [⟨"f41", []⟩]).dict "rawhide" = some 0 :=
  duplicate_alias_spec 1 1 ⟨fun q => if q = "rawhide" then some 0 else none, 0⟩
    "rawhide" 0 [⟨"f41", []⟩] (by simp) (by decide)

theorem processBranches_last_name (k : String) :
    ∀ (records : List BranchRecord) (idx : Nat) (st : RegState) (i : Nat),
      lastNameIdxAux idx k records = some i →
      (processBranches idx st records).dict k = some i := by
  intro records
  induction records with
  | nil => intro idx st i h; exact Option.noConfusion h
  | cons b rest ih =>
    intro idx st i h
    simp only [lastNameIdxAux] at h
    cases hinner : lastNameIdxAux (idx + 1) k rest with
    | some j =>
      rw [hinner] at h
      have hji : j = i := Option.some.inj h
      subst hji
      exact ih (idx + 1) (processBranch idx st b) j hinner
    | none =>
      rw [hinner] at h
      by_cases hbk : b.name = k
      · rw [if_pos hbk] at h
        have hi : i = idx := (Option.some.inj h).symm
        subst hi
        apply dict_persists k i rest (i + 1) (processBranch i st b) ?_
          (lastNameIdxAux_none k rest (i + 1) hinner)
        apply processChildren_preserves
        show (if k = b.name then some i else st.dict k) = some i
        rw [if_pos hbk.symm]
      · rw [if_neg hbk] at h
        exact Option.noConfusion h

/-- C10: the duplicate-key protection applies only to `<alias>` elements.  A
`<branch>` element's own name is assigned unconditionally with no warning, so
it silently replaces any earlier registration of the same key, and after
construction a duplicated branch name resolves to the last branch record
carrying it (in a catalog with exactly two same-named branches, the later
one). -/
theorem branch_name_overwrites_spec (records : List BranchRecord) (k : String) (i : Nat)
    (st : RegState) (idx j : Nat) (name : String)
    (hlast : lastNameIdx records k = some i) (_hprev : st.dict name = some j) :
    (buildRegistry records).dict k = some i
    ∧ (processBranch idx st ⟨name, []⟩).dict name = some idx
    ∧ (processBranch idx st ⟨name, []⟩).warnings = st.warnings := by
  refine ⟨processBranches_last_name k records 0 ⟨fun _ => none, 0⟩ i hlast, ?_, rfl⟩
  show (if name = name then some idx else st.dict name) = some idx
  rw [if_pos rfl]

/-- Witness for C10: a catalog with two branch records both named "f41"
resolves "f41" to the later record (index 1), and re-registering a taken name
produces no warning. -/
theorem branch_name_overwrites_spec_witness :
    (buildRegistry [⟨"f41", []⟩, ⟨"f41", []⟩]).dict "f41" = some 1
    ∧ (processBranch 1 ⟨fun q => if q = "f41" then some 0 else none, 0⟩ ⟨"f41", []⟩).dict "f41"
        = some 1
    ∧ (processBranch 1 ⟨fun q => if q = "f41" then some 0 else none, 0⟩ ⟨"f41", []⟩).warnings
        = (⟨fun q => if q = "f41" then some 0 else none, 0⟩ : RegState).warnings :=
  branch_name_overwrites_spec [⟨"f41", []⟩, ⟨"f41", []⟩] "f41" 1
    ⟨fun q => if q = "f41" then some 0 else none, 0⟩ 1 0 "f41" (by decide) (by simp)

/-! Helper lemmas for the batch loop. -/

theorem major_version_guard_ne_none {relax : Bool} {cur new : String}
    (h : pyIntDec (leadingComponent new) ≠ none) :
    major_version_guard relax cur new ≠ none := by
  simp only [major_version_guard]
  by_cases hd : leadingComponent cur ≠ leadingComponent new
  · rw [if_pos hd]
    cases hp : pyIntDec (leadingComponent new) with
    | none => exact absurd hp h
    | some n =>
      by_cases hn : n < 40
      · cases relax <;> simp [hn]
      · simp [hn]
  · rw [if_neg hd]
    simp

theorem tag_append {m : String} {l1 l2 : List (String × String)}
    (h1 : ∀ e ∈ l1, e.1 = m) (h2 : ∀ e ∈ l2, e.1 = m) :
    ∀ e ∈ l1 ++ l2, e.1 = m := by
  intro e he
  rcases List.mem_append.mp he with h | h
  · exact h1 e h
  · exact h2 e h

theorem tag_single {m s : String} : ∀ e ∈ [(m, s)], e.1 = m := by
  intro e he
  rcases List.mem_singleton.mp he with rfl
  rfl

theorem tag_replicate {m s : String} {n : Nat} : ∀ e ∈ List.replicate n (m, s), e.1 = m := by
  intro e he
  rcases List.eq_of_mem_replicate he with rfl
  rfl

theorem get_latest_version_mem (versions : List String) (maxv : Option String) (r : String)
    (h : get_latest_version versions maxv = some r) : r ∈ versions.map rstripSlash := by
  rcases glvAux_none_some_spec maxv _ r h with ⟨pre, post, heq, -, -⟩
  rw [heq]
  exact List.mem_append.mpr (Or.inr (List.mem_cons_self r post))

theorem module_body_no_crash (m : String) (env : ModuleEnv) (errs0 : List (String × String))
    (h0 : ∀ e ∈ errs0, e.1 = m)
    (hguard : ∀ v ∈ env.remoteVersions.map rstripSlash, pyIntDec (leadingComponent v) ≠ none) :
    ∃ o errs, module_body m env errs0 = Except.ok (o, errs) ∧ ∀ e ∈ errs, e.1 = m := by
  simp only [module_body]
  cases hco : env.checkoutOk with
  | false => exact ⟨_, _, rfl, tag_append h0 tag_single⟩
  | true =>
    simp only [Bool.not_true, Bool.false_eq_true, if_false]
    cases hsv : env.specVersionDot with
    | none => exact ⟨_, _, rfl, tag_append h0 tag_single⟩
    | some curDot =>
      cases hf : env.fetchOk with
      | false => exact ⟨_, _, rfl, tag_append h0 tag_replicate⟩
      | true =>
        simp only [Bool.not_true, Bool.false_eq_true, if_false]
        cases hj : env.jsonOk with
        | false => exact ⟨_, _, rfl, tag_append h0 tag_single⟩
        | true =>
          simp only [Bool.not_true, Bool.false_eq_true, if_false]
          cases hg : get_latest_version env.remoteVersions env.maxVersion with
          | none => exact ⟨_, _, rfl, tag_append h0 tag_single⟩
          | some newest =>
            cases hnewer : env.remoteIsNewer with
            | false => exact ⟨_, _, rfl, h0⟩
            | true =>
              simp only [Bool.not_true, Bool.false_eq_true, if_false]
              have hne : major_version_guard env.relax curDot newest ≠ none :=
                major_version_guard_ne_none
                  (hguard newest (get_latest_version_mem _ _ _ hg))
              cases hmg : major_version_guard env.relax curDot newest with
              | none => exact absurd hmg hne
              | some blocked =>
                cases blocked with
                | true => exact ⟨_, _, rfl, tag_append h0 tag_single⟩
                | false =>
                  cases ht : env.tailFailure with
                  | none => exact ⟨_, _, rfl, h0⟩
                  | some msg => exact ⟨_, _, rfl, tag_append h0 tag_single⟩

theorem module_step_no_crash (m : String) (env : ModuleEnv) (hsafe : envSafe env) :
    ∃ o errs, module_step m env = Except.ok (o, errs) ∧ ∀ e ∈ errs, e.1 = m := by
  simp only [module_step]
  by_cases hig : skipsForIgnore env.maxVersion = true
  · rw [if_pos hig]
    exact ⟨_, _, rfl, by intro e he; cases he⟩
  · rw [if_neg hig]
    cases hle : env.lockExists with
    | false =>
      have hlc : lock_check false env.lockPid env.pidAlive = .proceedFresh := rfl
      rw [hlc]
      exact module_body_no_crash m env _ (by intro e he; cases he) hsafe.2
    | true =>
      cases hlp : env.lockPid with
      | none => exact absurd hlp (hsafe.1 hle)
      | some pid =>
        cases hal : env.pidAlive with
        | true =>
          have hlc : lock_check true (some pid) true = .skipHeld pid := rfl
          rw [hlc]
          exact ⟨_, _, rfl, by intro e he; cases he⟩
        | false =>
          have hlc : lock_check true (some pid) false = .proceedStale pid := rfl
          rw [hlc]
          refine module_body_no_crash m env _ ?_ hsafe.2
          intro e he
          rcases List.mem_cons.mp he with rfl | he2
          · rfl
          · rcases List.mem_singleton.mp he2 with rfl
            rfl

theorem run_batch_no_crash :
    ∀ (batch : List (String × ModuleEnv)), (∀ p ∈ batch, envSafe p.2) →
      ∃ os errs, run_batch batch = Except.ok (os, errs)
        ∧ os.length = batch.length
        ∧ ∀ e ∈ errs, e.1 ∈ batch.map Prod.fst := by
  intro batch
  induction batch with
  | nil => intro _; exact ⟨[], [], rfl, rfl, by intro e he; cases he⟩
  | cons p rest ih =>
    intro hsafe
    obtain ⟨m, env⟩ := p
    rcases module_step_no_crash m env (hsafe (m, env) (List.mem_cons_self _ _)) with
      ⟨o, errs, hstep, htag⟩
    rcases ih (fun q hq => hsafe q (List.mem_cons_of_mem _ hq)) with
      ⟨os, errs2, hrest, hlen, htag2⟩
    refine ⟨o :: os, errs ++ errs2, ?_, by simp [hlen], ?_⟩
    · simp only [run_batch, hstep, hrest]
    · intro e he
      rcases List.mem_append.mp he with h | h
      · exact List.mem_cons.mpr (Or.inl (htag e h))
      · exact List.mem_cons.mpr (Or.inr (htag2 e h))

/-- C7 (amended): per-module errors that the loop anticipates (failed
commands, unreadable spec files, fetch and JSON failures, no candidate under
the limit, the policy block, tail-step failures, stale locks) are recorded in
the global error list tagged with the module's identity and processing
continues to the next module; every module of the batch reaches a terminal
outcome.  But this holds only for inputs that avoid the loop's unhandled
exceptions (parsable lock-file pid; numeric leading components for the
candidates) — the protection is not universal, see the counterexample. -/
theorem batch_error_isolation_spec (batch : List (String × ModuleEnv))
    (h : ∀ p ∈ batch, envSafe p.2) :
    ∃ os errs, run_batch batch = Except.ok (os, errs)
      ∧ os.length = batch.length
      ∧ ∀ e ∈ errs, e.1 ∈ batch.map Prod.fst :=
  run_batch_no_crash batch h

/-- Witness for C7's amended theorem: a two-module batch where the first
module fails at checkout completes with two outcomes and only errors naming
batch modules. -/
theorem batch_error_isolation_spec_witness :
    ∃ os errs,
      run_batch [("gedit", { okEnv with checkoutOk := false }), ("gpm", okEnv)]
          = Except.ok (os, errs)
        ∧ os.length = [("gedit", { okEnv with checkoutOk := false }), ("gpm", okEnv)].length
        ∧ ∀ e ∈ errs,
            e.1 ∈ [("gedit", { okEnv with checkoutOk := false }), ("gpm", okEnv)].map
              Prod.fst :=
  batch_error_isolation_spec _ (by
    intro p hp
    rcases List.mem_cons.mp hp with rfl | hp2
    · exact ⟨by decide, by decide⟩
    · rcases List.mem_singleton.mp hp2 with rfl
      exact ⟨by decide, by decide⟩)

/-- C7 fails as stated: not every per-module failure is caught at the loop
boundary.  For the module "gpm" whose only remote candidate is "alpha.1",
`int("alpha")` in the major-version guard raises an uncaught `ValueError`, and
in a three-module batch the whole run aborts — the module after it is never
processed and nothing is recorded. -/
theorem module_failure_crashes_batch_counterexample :
    module_step "gpm" crashEnv = Except.error PyExn.valueError
    ∧ run_batch [("gnome-shell", okEnv), ("gpm", crashEnv), ("gedit", okEnv)]
        = Except.error PyExn.valueError := by
  exact ⟨rfl, rfl⟩
